import Mathlib

/-!
# Shallow embedding of the fd-reactor crate

This file embeds the two source files of the `fd-reactor` repository
(`src/lib.rs` and `src/future.rs`) as executable Lean definitions and proves
properties of them.

* `Interest` mirrors the `bitflags` struct over `i16` poll bits
  (`READ = POLLIN`, `WRITE = POLLOUT`, `BOTH = POLLIN | POLLOUT`).
* The registration table `ReactorFds = Arc<Mutex<HashMap<RawFd, (Interest,
  Arc<AtomicBool>, Waker)>>>` is embedded as an association list from the
  raw descriptor to a `Registration`; `HashMap::insert` overwrites and
  `HashMap::remove` deletes, which the list operations reproduce.
* The shared `Arc<AtomicBool>` completion flags are embedded as a heap of
  booleans (`ReactorState.flags`) addressed by allocation index, so that a
  flag shared between a table entry and an `FdFuture` is a single cell.
* `Waker` is embedded as an identifier together with `will_wake` as
  identifier equality; `wake_by_ref` calls are recorded in a log.
* Writes of the interrupt byte are recorded as a counter of attempted
  writes on the write end of the pipe.
-/

/-- `libc::POLLIN` (0x001). -/
def POLLIN : Nat := 1

/-- `libc::POLLOUT` (0x004). -/
def POLLOUT : Nat := 4

/-- `libc::POLLERR` (0x008). -/
def POLLERR : Nat := 8

/-- `libc::POLLHUP` (0x010). -/
def POLLHUP : Nat := 16

/-- The `Interest` bitflags struct from `src/lib.rs`: events that should be
listened for on a given file descriptor. -/
structure Interest where
  bits : Nat
deriving DecidableEq, Repr

/-- `Interest::READ = libc::POLLIN`. -/
def Interest.READ : Interest := ⟨POLLIN⟩

/-- `Interest::WRITE = libc::POLLOUT`. -/
def Interest.WRITE : Interest := ⟨POLLOUT⟩

/-- `Interest::BOTH = libc::POLLIN | libc::POLLOUT`. -/
def Interest.BOTH : Interest := ⟨POLLIN ||| POLLOUT⟩

/-- The union of all defined flag bits, as used by `bitflags` 1.x for
truncation: `POLLIN | POLLOUT`. -/
def Interest.allBits : Nat := POLLIN ||| POLLOUT

/-- `Interest::from_bits_truncate` from `bitflags` 1.x: keep only defined
flag bits. -/
def Interest.fromBitsTruncate (bits : Nat) : Interest :=
  ⟨bits &&& Interest.allBits⟩

/-- `Interest::contains` from `bitflags` 1.x:
`(self.bits & other.bits) == other.bits`. -/
def Interest.contains (a b : Interest) : Bool :=
  a.bits &&& b.bits == b.bits

/-- An `std::task::Waker`, abstracted to an identity; `will_wake` compares
identities. -/
structure Waker where
  id : Nat
deriving DecidableEq, Repr

/-- `Waker::will_wake`: would this waker wake the same task in the same way
as the other one. -/
def Waker.willWake (a b : Waker) : Bool := a.id == b.id

/-- The value type of the registration table:
`(Interest, Arc<AtomicBool>, Waker)`. The `completed` field is the index of
the shared boolean cell in the flag heap. -/
structure Registration where
  interest : Interest
  completed : Nat
  waker : Waker
deriving DecidableEq, Repr

/-- The registration table `HashMap<RawFd, (Interest, Arc<AtomicBool>,
Waker)>`, as an association list keyed by the raw descriptor. -/
abbrev FdMap : Type := List (Int × Registration)

/-- `HashMap::remove(&fd)`: drop the entry for `fd` if present. -/
def FdMap.remove (m : FdMap) (fd : Int) : FdMap :=
  List.filter (fun p => p.1 != fd) m

/-- `HashMap::insert(fd, value)`: insert, overwriting any previous entry
for `fd`. -/
def FdMap.insert (m : FdMap) (fd : Int) (r : Registration) : FdMap :=
  (fd, r) :: m.remove fd

/-- `HashMap::get(&fd)`. -/
def FdMap.get (m : FdMap) (fd : Int) : Option Registration :=
  (List.find? (fun p => p.1 == fd) m).map (fun p => p.2)

/-- Number of entries in the table. -/
def FdMap.size (m : FdMap) : Nat := List.length m

/-- A `HashMap` holds at most one entry per key; the association-list
embedding states this as the key list having no duplicates. -/
def FdMap.keysNodup (m : FdMap) : Prop :=
  (List.map Prod.fst m).Nodup

/-- The shared mutable state reachable from a reactor `Handle`: the
registration table behind the mutex, the heap of `Arc<AtomicBool>`
completion flags, the number of bytes written on the write end of the
interrupt pipe, and the log of `wake_by_ref` invocations performed by the
reactor thread. -/
structure ReactorState where
  fds : FdMap
  flags : List Bool
  interruptBytes : Nat
  wokenWakers : List Waker
deriving DecidableEq, Repr

/-- Read an `Arc<AtomicBool>` cell (`load`). Out-of-range indices never
arise from the embedded operations; they default to `false`. -/
def flagRead (s : ReactorState) (j : Nat) : Bool :=
  s.flags.getD j false

/-- `Handle::register(fd, interest, completed, waker)` from `src/lib.rs`:
lock the table, `insert` (overwriting any previous entry), then write one
byte on a clone of the write end of the interrupt pipe. -/
def Handle.register (s : ReactorState) (fd : Int) (interest : Interest)
    (completed : Nat) (waker : Waker) : ReactorState :=
  { s with
    fds := s.fds.insert fd ⟨interest, completed, waker⟩
    interruptBytes := s.interruptBytes + 1 }

/-- `Handle::unregister(fd)` from `src/lib.rs`: lock the table, `remove`
the entry for `fd`, then write one byte on a clone of the write end of
the interrupt pipe. -/
def Handle.unregister (s : ReactorState) (fd : Int) : ReactorState :=
  { s with
    fds := s.fds.remove fd
    interruptBytes := s.interruptBytes + 1 }

/-- Result of a Rust `io` operation, for modelling the fallible calls in
`Handle::register`/`Handle::unregister`. -/
inductive IoResult where
  | ok
  | err
deriving DecidableEq, Repr

/-- How a call to `register`/`unregister` behaves towards its caller. -/
inductive CallBehavior where
  | returnsUnit
  | panics
deriving DecidableEq, Repr

/-- The interrupt-signalling statement shared by `Handle::register` and
`Handle::unregister`:
`let _ = self.interrupt.try_clone().unwrap().write_all(b"0");`.
`try_clone()` returns `io::Result<File>` and is unwrapped — an `Err` from
the clone panics; only the result of `write_all` is discarded by the
`let _` binding. -/
def interruptSignalBehavior (cloneRes writeRes : IoResult) : CallBehavior :=
  match cloneRes, writeRes with
  | .err, _ => .panics
  | .ok, _ => .returnsUnit

/-- A `libc::pollfd` entry of the wait-set. -/
structure Pollfd where
  fd : Int
  events : Nat
  revents : Nat
deriving DecidableEq, Repr

/-- The dispatch on the return value of `poll(2)` in the reactor thread loop
(`src/lib.rs`): `-1` panics ("fatal error in process reactor"), any other
value `< 1` loops back without taking the lock, otherwise the returned
events are handled under the lock. -/
inductive PollDisposition where
  | fatalPanic
  | retrySkipLock
  | handleEvents
deriving DecidableEq, Repr

/-- `if returned == -1 { panic!(...) } else if returned < 1 { continue }`
from the reactor thread loop. -/
def reactorDispatch (returned : Int) : PollDisposition :=
  if returned == -1 then .fatalPanic
  else if returned < 1 then .retrySkipLock
  else .handleEvents

/-- Which execution scope a `panic!` in the reactor thread takes down. -/
inductive FatalScope where
  | processTerminates
  | threadOnlyDies
deriving DecidableEq, Repr

/-- Modelled from the spec: whether a `panic!` of the reactor thread aborts
the whole process is fixed by the panic strategy of the build profile
(Cargo configuration of the consuming binary), which is not part of
`src/`; the spec states that a fatal OS-level failure of the wait call
"is unrecoverable and terminates the process". -/
def fatalPanicScope : FatalScope := .processTerminates

/-- The body of the notification `for_each` in the reactor thread
(`src/lib.rs`): look the descriptor up in the table; if present and
`value.0.contains(Interest::from_bits_truncate(event.revents))`, store
`true` into the completion flag and `wake_by_ref` the stored waker. -/
def notifyOne (s : ReactorState) (event : Pollfd) : ReactorState :=
  match s.fds.get event.fd with
  | none => s
  | some value =>
    if value.interest.contains (Interest.fromBitsTruncate event.revents) then
      { s with
        flags := s.flags.set value.completed true
        wokenWakers := s.wokenWakers ++ [value.waker] }
    else s

/-- The notification pass of the reactor thread over `pollers[1..]`:
filter the entries with nonzero `revents` and run `notifyOne` on each. -/
def notifyAll (s : ReactorState) (events : List Pollfd) : ReactorState :=
  (events.filter (fun e => e.revents != 0)).foldl notifyOne s

/-- The branch on the interrupt descriptor (`pollers[0]`) in the reactor
thread: when its `revents` equals exactly `POLLIN`, drain one byte and do
no notification this iteration; otherwise run the notification pass over
the remaining entries. Returns the state and whether a byte was drained. -/
def reactorHandleEvents (s : ReactorState) (interruptRevents : Nat)
    (rest : List Pollfd) : ReactorState × Bool :=
  if interruptRevents == POLLIN then (s, true)
  else (notifyAll s rest, false)

/-- The wait-set rebuild at the bottom of the reactor thread loop
(`src/lib.rs`): clear `pollers`, push the interrupt read end with
`POLLIN`, then push one `pollfd` per table entry carrying the stored
interest bits of that entry. -/
def rebuildPollers (interruptFd : Int) (m : FdMap) : List Pollfd :=
  ⟨interruptFd, POLLIN, 0⟩ ::
    List.map (fun p => Pollfd.mk p.1 p.2.interest.bits 0) m

/-- The `FdFuture` from `src/future.rs`. -/
structure FdFuture where
  fd : Int
  interest : Interest
  last_waker : Option Waker
  completed : Nat
deriving DecidableEq, Repr

/-- `FdFuture::new(fd, interest)`: a fresh future with no recorded waker
and a freshly allocated `Arc<AtomicBool>` initialised to `false`. The
allocation extends the flag heap. -/
def FdFuture.new (s : ReactorState) (fd : Int) (interest : Interest) :
    FdFuture × ReactorState :=
  (⟨fd, interest, none, s.flags.length⟩,
   { s with flags := s.flags ++ [false] })

/-- `Poll<()>`, the result type of `poll` on the future. -/
inductive PollRes where
  | ready
  | pending
deriving DecidableEq, Repr

/-- `FdFuture::poll` from `src/future.rs`:
if the completion flag reads `true`, unregister and return `Ready`;
else if a last waker was recorded and `will_wake`s the supplied waker,
return `Pending` untouched; else unregister, register with the supplied
waker, record it as `last_waker`, and return `Pending`. Returns the poll
result, the updated future, and the updated reactor state. -/
def FdFuture.poll (f : FdFuture) (s : ReactorState) (cxWaker : Waker) :
    PollRes × FdFuture × ReactorState :=
  if flagRead s f.completed then
    (.ready, f, Handle.unregister s f.fd)
  else if (match f.last_waker with
           | some lw => lw.willWake cxWaker
           | none => false) then
    (.pending, f, s)
  else
    let s1 := Handle.unregister s f.fd
    let s2 := Handle.register s1 f.fd f.interest f.completed cxWaker
    (.pending, { f with last_waker := some cxWaker }, s2)

/-! ## Helper lemmas about the association-list embedding of `HashMap` -/

theorem FdMap.get_insert_self (m : FdMap) (fd : Int) (r : Registration) :
    (m.insert fd r).get fd = some r := by
  unfold FdMap.get FdMap.insert
  rw [List.find?_cons_of_pos _ (by simp)]
  rfl

theorem FdMap.find?_remove (m : FdMap) (fd : Int) :
    List.find? (fun p => p.1 == fd) (m.remove fd) = none := by
  rw [List.find?_eq_none]
  intro x hx
  unfold FdMap.remove at hx
  rw [List.mem_filter] at hx
  simpa using hx.2

theorem FdMap.get_remove_self (m : FdMap) (fd : Int) :
    (m.remove fd).get fd = none := by
  unfold FdMap.get
  rw [FdMap.find?_remove]
  rfl

theorem FdMap.get_remove_ne (m : FdMap) (fd fd' : Int) (h : fd' ≠ fd) :
    (m.remove fd).get fd' = m.get fd' := by
  induction m with
  | nil => rfl
  | cons p t ih =>
    unfold FdMap.remove at ih ⊢
    unfold FdMap.get at ih ⊢
    rw [List.filter_cons]
    by_cases hp : p.1 = fd
    · rw [if_neg (by simp [hp])]
      rw [List.find?_cons_of_neg _
        (by simp only [hp, beq_iff_eq]; exact fun hh => h hh.symm)]
      exact ih
    · rw [if_pos (by simp [hp])]
      by_cases hq : p.1 = fd'
      · rw [List.find?_cons_of_pos _ (by simp [hq]),
          List.find?_cons_of_pos _ (by simp [hq])]
      · rw [List.find?_cons_of_neg _ (by simp [hq]),
          List.find?_cons_of_neg _ (by simp [hq])]
        exact ih

theorem FdMap.remove_remove (m : FdMap) (fd : Int) :
    (m.remove fd).remove fd = m.remove fd := by
  unfold FdMap.remove
  rw [List.filter_filter]
  apply List.filter_congr
  intro x _
  simp

theorem FdMap.remove_eq_self (m : FdMap) (fd : Int) (h : m.get fd = none) :
    m.remove fd = m := by
  unfold FdMap.remove
  rw [List.filter_eq_self]
  intro p hp
  unfold FdMap.get at h
  rw [Option.map_eq_none'] at h
  rw [List.find?_eq_none] at h
  simpa using h p hp

theorem FdMap.get_mem {m : FdMap} {fd : Int} {v : Registration}
    (h : m.get fd = some v) : (fd, v) ∈ m := by
  induction m with
  | nil => simp [FdMap.get] at h
  | cons p t ih =>
    unfold FdMap.get at h ih
    by_cases hp : p.1 = fd
    · rw [List.find?_cons_of_pos _ (by simp [hp])] at h
      have hv : p.2 = v := by simpa using h
      have hpv : p = (fd, v) := by
        cases p
        simp_all
      rw [← hpv]
      exact List.mem_cons_self _ _
    · rw [List.find?_cons_of_neg _ (by simp [hp])] at h
      exact List.mem_cons_of_mem _ (ih h)

theorem FdMap.get_of_mem_nodup {m : FdMap} (hm : m.keysNodup) {fd : Int}
    {v : Registration} (h : (fd, v) ∈ m) : m.get fd = some v := by
  induction m with
  | nil => simp at h
  | cons p t ih =>
    unfold FdMap.keysNodup at hm ih
    rw [List.map_cons, List.nodup_cons] at hm
    unfold FdMap.get at ih ⊢
    rcases List.mem_cons.mp h with hh | hh
    · rw [List.find?_cons_of_pos _ (by simp [← hh])]
      rw [← hh]
      rfl
    · have hfd : fd ∈ List.map Prod.fst t := List.mem_map_of_mem _ hh
      have hne : p.1 ≠ fd := fun he => hm.1 (he ▸ hfd)
      rw [List.find?_cons_of_neg _ (by simp [hne])]
      exact ih hm.2 hh

theorem FdMap.keysNodup_nil : FdMap.keysNodup ([] : FdMap) := by
  simp [FdMap.keysNodup]

theorem FdMap.keysNodup_remove (m : FdMap) (fd : Int) (hm : m.keysNodup) :
    (m.remove fd).keysNodup := by
  unfold FdMap.keysNodup FdMap.remove at *
  exact List.Nodup.sublist (List.Sublist.map _ (List.filter_sublist m)) hm

theorem FdMap.keysNodup_insert (m : FdMap) (fd : Int) (r : Registration)
    (hm : m.keysNodup) : (m.insert fd r).keysNodup := by
  unfold FdMap.insert
  unfold FdMap.keysNodup
  rw [List.map_cons, List.nodup_cons]
  constructor
  · intro hmem
    rcases List.mem_map.mp hmem with ⟨p, hp, hfst⟩
    unfold FdMap.remove at hp
    rw [List.mem_filter] at hp
    have : p.1 ≠ fd := by simpa using hp.2
    exact this hfst
  · exact FdMap.keysNodup_remove m fd hm

theorem getD_true_lt (l : List Bool) (j : Nat) (h : l.getD j false = true) :
    j < l.length := by
  by_contra hle
  rw [List.getD_eq_default _ _ (Nat.le_of_not_lt hle)] at h
  exact Bool.false_ne_true h

theorem getD_set_self_of_lt (l : List Bool) (j : Nat) (b : Bool)
    (h : j < l.length) : (l.set j b).getD j false = b := by
  rw [List.getD_eq_getElem _ _ (by simpa using h)]
  simp [List.getElem_set_self]

theorem getD_set_preserves_true (l : List Bool) (j k : Nat)
    (h : l.getD j false = true) : (l.set k true).getD j false = true := by
  by_cases hjk : j = k
  · subst hjk
    exact getD_set_self_of_lt l j true (getD_true_lt l j h)
  · rw [List.getD_eq_getD_get?, List.get?_set_ne _ _ (Ne.symm hjk),
      ← List.getD_eq_getD_get?]
    exact h

theorem getD_append_length (l : List Bool) (b : Bool) :
    (l ++ [b]).getD l.length false = b := by
  rw [List.getD_append_right l [b] false l.length (Nat.le_refl _)]
  simp

theorem notifyOne_get_some (s : ReactorState) (e : Pollfd)
    (v : Registration) (hget : s.fds.get e.fd = some v) :
    notifyOne s e =
      if v.interest.contains (Interest.fromBitsTruncate e.revents) then
        { s with flags := s.flags.set v.completed true
                 wokenWakers := s.wokenWakers ++ [v.waker] }
      else s := by
  unfold notifyOne
  rw [hget]

theorem notifyOne_flags_mono (s : ReactorState) (e : Pollfd) (j : Nat)
    (h : flagRead s j = true) : flagRead (notifyOne s e) j = true := by
  cases hg : s.fds.get e.fd with
  | none =>
    unfold notifyOne
    rw [hg]
    exact h
  | some v =>
    rw [notifyOne_get_some s e v hg]
    by_cases hc :
      v.interest.contains (Interest.fromBitsTruncate e.revents) = true
    · rw [if_pos hc]
      unfold flagRead at h ⊢
      exact getD_set_preserves_true s.flags j v.completed h
    · rw [if_neg hc]
      exact h

theorem foldl_notifyOne_mono (l : List Pollfd) (s : ReactorState) (j : Nat)
    (h : flagRead s j = true) :
    flagRead (l.foldl notifyOne s) j = true := by
  induction l generalizing s with
  | nil => exact h
  | cons e t ih => exact ih _ (notifyOne_flags_mono s e j h)

/-! ## Claim theorems -/

/-- Claim C2 (counterexample): at the concrete input where cloning the
interrupt write end fails and the byte write would succeed, the signalling
statement panics (the clone result is unwrapped) instead of swallowing the
failure, refuting the claim as stated. -/
theorem interrupt_clone_failure_panics :
    interruptSignalBehavior IoResult.err IoResult.ok = CallBehavior.panics ∧
    CallBehavior.panics ≠ CallBehavior.returnsUnit := by
  decide

/-- Claim C2 (amended): when the clone of the interrupt write end
succeeds, the call returns unit no matter whether the byte write fails
(the write result is discarded by the wildcard binding); when the clone
fails, the call panics. -/
theorem interrupt_write_swallowed_clone_panics :
    (∀ wr : IoResult,
      interruptSignalBehavior IoResult.ok wr = CallBehavior.returnsUnit) ∧
    (∀ wr : IoResult,
      interruptSignalBehavior IoResult.err wr = CallBehavior.panics) := by
  constructor
  · intro wr
    cases wr <;> rfl
  · intro wr
    cases wr <;> rfl

/-- Claim C3: when the blocking wait returns `-1`, the reactor thread loop
takes the fatal branch (a panicking abort of the loop) and not the retry
branch; the panic scope is modelled from the spec (the panic strategy is
fixed outside `src/`) as terminating the process. -/
theorem fatal_poll_error_terminates :
    reactorDispatch (-1) = PollDisposition.fatalPanic ∧
    reactorDispatch (-1) ≠ PollDisposition.retrySkipLock ∧
    fatalPanicScope = FatalScope.processTerminates := by
  decide

/-- Claim C4: after `register(fd, interest, completed, waker)` the table
maps `fd` to exactly that triple, overwriting any previous entry; in
particular, after a register/unregister/register sequence on the same
descriptor from one thread, the entry for `fd` reflects only the last
`register` call. -/
theorem register_overwrites_entry (s : ReactorState) (fd : Int)
    (i : Interest) (c : Nat) (w : Waker) :
    (Handle.register s fd i c w).fds.get fd = some ⟨i, c, w⟩ ∧
    ∀ (i1 : Interest) (c1 : Nat) (w1 : Waker),
      (Handle.register (Handle.unregister (Handle.register s fd i1 c1 w1) fd)
        fd i c w).fds.get fd = some ⟨i, c, w⟩ := by
  constructor
  · exact FdMap.get_insert_self _ fd _
  · intro i1 c1 w1
    exact FdMap.get_insert_self _ fd _

/-- Claim C5: polling a future whose completion flag reads `false` with a
waker that `will_wake`s the recorded last waker returns `Pending` and
leaves both the future (including the recorded waker) and the whole
reactor state — table, flag heap, interrupt byte count, wake log —
unchanged. -/
theorem poll_same_waker_frame (f : FdFuture) (s : ReactorState)
    (w lw : Waker) (hflag : flagRead s f.completed = false)
    (hlast : f.last_waker = some lw) (hww : lw.willWake w = true) :
    FdFuture.poll f s w = (PollRes.pending, f, s) := by
  unfold FdFuture.poll
  rw [hflag, hlast]
  simp [hww]

/-- Claim C5 witness: a concrete re-poll with an unchanged waker. -/
theorem poll_same_waker_frame_witness :
    FdFuture.poll ⟨5, Interest.READ, some ⟨3⟩, 0⟩
        ⟨[(5, ⟨Interest.READ, 0, ⟨3⟩⟩)], [false], 1, []⟩ ⟨3⟩ =
      (PollRes.pending, ⟨5, Interest.READ, some ⟨3⟩, 0⟩,
        ⟨[(5, ⟨Interest.READ, 0, ⟨3⟩⟩)], [false], 1, []⟩) :=
  poll_same_waker_frame ⟨5, Interest.READ, some ⟨3⟩, 0⟩
    ⟨[(5, ⟨Interest.READ, 0, ⟨3⟩⟩)], [false], 1, []⟩ ⟨3⟩ ⟨3⟩ rfl rfl rfl

/-- Claim C6: whenever `poll` is invoked on a future whose completion flag
reads `true`, the future unregisters its descriptor from the reactor and
reports `Ready`, regardless of the rest of its state (so regardless of how
often it was polled before). -/
theorem poll_completed_unregisters_ready (f : FdFuture) (s : ReactorState)
    (w : Waker) (h : flagRead s f.completed = true) :
    FdFuture.poll f s w = (PollRes.ready, f, Handle.unregister s f.fd) := by
  unfold FdFuture.poll
  rw [h]
  simp

/-- Claim C6 witness: a concrete completed poll. -/
theorem poll_completed_unregisters_ready_witness :
    FdFuture.poll ⟨5, Interest.READ, none, 0⟩ ⟨[], [true], 0, []⟩ ⟨0⟩ =
      (PollRes.ready, ⟨5, Interest.READ, none, 0⟩,
        Handle.unregister ⟨[], [true], 0, []⟩ 5) :=
  poll_completed_unregisters_ready ⟨5, Interest.READ, none, 0⟩
    ⟨[], [true], 0, []⟩ ⟨0⟩ rfl

/-- Claim C7: `unregister` is idempotent: removing an absent descriptor
leaves the table unchanged and panics nowhere, every other entry is
untouched by a removal, and a second `unregister` of the same descriptor
yields the same table state as a single one. -/
theorem unregister_idempotent (s : ReactorState) (fd : Int) :
    (s.fds.get fd = none → (Handle.unregister s fd).fds = s.fds) ∧
    (∀ fd' : Int, fd' ≠ fd →
      (Handle.unregister s fd).fds.get fd' = s.fds.get fd') ∧
    (Handle.unregister (Handle.unregister s fd) fd).fds =
      (Handle.unregister s fd).fds := by
  refine ⟨fun h => FdMap.remove_eq_self _ fd h,
    fun fd' h => FdMap.get_remove_ne _ fd fd' h,
    FdMap.remove_remove _ fd⟩

/-- Claim C7 witness: the idempotence theorem applied at concrete states,
once removing from an empty table and once checking an unrelated entry. -/
theorem unregister_idempotent_witness :
    (Handle.unregister ⟨[], [true], 0, []⟩ 3).fds = ([] : FdMap) ∧
    (Handle.unregister ⟨[(2, ⟨Interest.READ, 0, ⟨1⟩⟩)], [false], 0, []⟩
        3).fds.get 2 =
      FdMap.get [(2, ⟨Interest.READ, 0, ⟨1⟩⟩)] 2 :=
  ⟨(unregister_idempotent ⟨[], [true], 0, []⟩ 3).1 rfl,
   (unregister_idempotent ⟨[(2, ⟨Interest.READ, 0, ⟨1⟩⟩)], [false], 0, []⟩
      3).2.1 2 (by decide)⟩

/-- Claim C9: a completion flag is created reading `false`
(`FdFuture::new`); `register`, `unregister` and `FdFuture::poll` never
write any flag (the flag heap is untouched); and the notification pass of
the reactor thread only stores `true`, so a flag that reads `true` keeps
reading `true` — no operation resets a flag from `true` back to `false`. -/
theorem completion_flag_single_writer :
    (∀ (s : ReactorState) (fd : Int) (i : Interest),
      flagRead (FdFuture.new s fd i).2 (FdFuture.new s fd i).1.completed =
        false) ∧
    (∀ (s : ReactorState) (fd : Int) (i : Interest) (c : Nat) (w : Waker),
      (Handle.register s fd i c w).flags = s.flags) ∧
    (∀ (s : ReactorState) (fd : Int),
      (Handle.unregister s fd).flags = s.flags) ∧
    (∀ (f : FdFuture) (s : ReactorState) (w : Waker),
      (FdFuture.poll f s w).2.2.flags = s.flags) ∧
    (∀ (s : ReactorState) (events : List Pollfd) (j : Nat),
      flagRead s j = true → flagRead (notifyAll s events) j = true) := by
  refine ⟨?_, ?_, ?_, ?_, ?_⟩
  · intro s fd i
    exact getD_append_length s.flags false
  · intro s fd i c w
    rfl
  · intro s fd
    rfl
  · intro f s w
    unfold FdFuture.poll
    split
    · rfl
    · split
      · rfl
      · rfl
  · intro s events j h
    exact foldl_notifyOne_mono _ s j h

/-- Claim C9 witness: the monotonicity part applied at a concrete state
whose single flag already reads `true`. -/
theorem completion_flag_single_writer_witness :
    flagRead (notifyAll ⟨[], [true], 0, []⟩ []) 0 = true :=
  completion_flag_single_writer.2.2.2.2 ⟨[], [true], 0, []⟩ [] 0 rfl

/-- Claim C10: the first poll of a freshly constructed future never
reports completion: the fresh flag reads `false` and no waker is recorded,
so the poll takes the registration path — unregister, register with the
supplied waker, record it as the last waker — and returns `Pending`. -/
theorem first_poll_registers_pending (s : ReactorState) (fd : Int)
    (i : Interest) (w : Waker) :
    FdFuture.poll (FdFuture.new s fd i).1 (FdFuture.new s fd i).2 w =
      (PollRes.pending,
       ⟨fd, i, some w, s.flags.length⟩,
       Handle.register (Handle.unregister (FdFuture.new s fd i).2 fd)
         fd i s.flags.length w) := by
  have hflag : flagRead (FdFuture.new s fd i).2
      (FdFuture.new s fd i).1.completed = false :=
    getD_append_length s.flags false
  unfold FdFuture.poll
  rw [hflag]
  rfl

/-- Claim C1 (counterexample): with one registration of descriptor `7`
for `READ` and a returned event reporting only `POLLHUP`, the reported
events share no bit with the stored interest, yet the notification pass
marks the completion flag `true` and wakes the stored waker — the code
tests `interest.contains(Interest::from_bits_truncate(revents))`, which
is vacuously true when the truncation is empty. Conversely, an event
reporting `POLLIN | POLLOUT` does intersect the `READ` interest, yet
nothing is marked or woken, because the truncated events are not a subset
of the interest. Both directions refute the "if and only if the reported
events intersect" of the claim. -/
theorem notify_intersect_refuted :
    (POLLHUP &&& Interest.READ.bits = 0 ∧
      flagRead (notifyAll ⟨[(7, ⟨Interest.READ, 0, ⟨0⟩⟩)], [false], 0, []⟩
        [⟨7, POLLIN, POLLHUP⟩]) 0 = true ∧
      (notifyAll ⟨[(7, ⟨Interest.READ, 0, ⟨0⟩⟩)], [false], 0, []⟩
        [⟨7, POLLIN, POLLHUP⟩]).wokenWakers = [⟨0⟩]) ∧
    ((POLLIN ||| POLLOUT) &&& Interest.READ.bits ≠ 0 ∧
      notifyAll ⟨[(7, ⟨Interest.READ, 0, ⟨0⟩⟩)], [false], 0, []⟩
        [⟨7, POLLIN, POLLIN ||| POLLOUT⟩] =
        ⟨[(7, ⟨Interest.READ, 0, ⟨0⟩⟩)], [false], 0, []⟩) := by
  decide

/-- Claim C1 (amended): in the non-interrupt branch, for a descriptor in
the returned event set with nonzero reported events whose entry is
present in the table (with an in-range flag index), the entry has its
completion flag stored `true` and its stored waker woken when the stored
interest `contains` the truncation of the reported events to the
READ/WRITE bits, and the state is left completely unchanged otherwise. -/
theorem notify_contains_char (s : ReactorState) (e : Pollfd)
    (v : Registration) (hrev : e.revents ≠ 0)
    (hget : s.fds.get e.fd = some v) (hlt : v.completed < s.flags.length) :
    (v.interest.contains (Interest.fromBitsTruncate e.revents) = true →
      flagRead (notifyAll s [e]) v.completed = true ∧
      (notifyAll s [e]).wokenWakers = s.wokenWakers ++ [v.waker] ∧
      (notifyAll s [e]).fds = s.fds) ∧
    (v.interest.contains (Interest.fromBitsTruncate e.revents) = false →
      notifyAll s [e] = s) := by
  have hone : notifyAll s [e] = notifyOne s e := by
    unfold notifyAll
    rw [List.filter_cons, if_pos (by simpa using hrev)]
    rfl
  rw [hone, notifyOne_get_some s e v hget]
  constructor
  · intro hc
    rw [if_pos hc]
    refine ⟨?_, rfl, rfl⟩
    unfold flagRead
    exact getD_set_self_of_lt s.flags v.completed true hlt
  · intro hc
    rw [if_neg (by simp [hc])]

/-- Claim C1 witness: the amended characterisation applied at a concrete
state and an event whose reported events are exactly `POLLIN`. -/
theorem notify_contains_char_witness :
    flagRead (notifyAll ⟨[(7, ⟨Interest.READ, 0, ⟨9⟩⟩)], [false], 0, []⟩
      [⟨7, POLLIN, POLLIN⟩]) 0 = true :=
  ((notify_contains_char ⟨[(7, ⟨Interest.READ, 0, ⟨9⟩⟩)], [false], 0, []⟩
      ⟨7, POLLIN, POLLIN⟩ ⟨Interest.READ, 0, ⟨9⟩⟩ (by decide) (by decide)
      (by decide)).1 (by decide)).1

/-- Claim C8: with the table keys duplicate-free (the `HashMap`
invariant; it holds for every reachable table by `FdMap.keysNodup_nil`,
`FdMap.keysNodup_insert` and `FdMap.keysNodup_remove`), the rebuilt
wait-set is exactly the interrupt read descriptor requesting `POLLIN`
followed by one entry per table key requesting the stored interest bits
of that key: the head is the interrupt entry, the tail has the same
length as the table with duplicate-free descriptors, every table entry
contributes its wait entry, and every tail entry comes from a table
entry. -/
theorem rebuild_pollers_exact (interruptFd : Int) (m : FdMap)
    (hm : m.keysNodup) :
    (rebuildPollers interruptFd m).length = m.size + 1 ∧
    (rebuildPollers interruptFd m).head? = some ⟨interruptFd, POLLIN, 0⟩ ∧
    (List.map Pollfd.fd (rebuildPollers interruptFd m).tail).Nodup ∧
    (∀ (fd : Int) (v : Registration), m.get fd = some v →
      Pollfd.mk fd v.interest.bits 0 ∈ (rebuildPollers interruptFd m).tail) ∧
    (∀ e ∈ (rebuildPollers interruptFd m).tail,
      ∃ v : Registration, m.get e.fd = some v ∧
        e.events = v.interest.bits ∧ e.revents = 0) := by
  have htail : (rebuildPollers interruptFd m).tail =
      List.map (fun p => Pollfd.mk p.1 p.2.interest.bits 0) m := rfl
  refine ⟨?_, rfl, ?_, ?_, ?_⟩
  · simp [rebuildPollers, FdMap.size]
  · rw [htail, List.map_map]
    exact hm
  · intro fd v hget
    rw [htail]
    exact List.mem_map_of_mem _ (FdMap.get_mem hget)
  · intro e he
    rw [htail] at he
    rcases List.mem_map.mp he with ⟨p, hp, hfe⟩
    refine ⟨p.2, ?_, ?_, ?_⟩
    · rw [← hfe]
      exact FdMap.get_of_mem_nodup hm hp
    · rw [← hfe]
    · rw [← hfe]

/-- Claim C8 witness: the wait-set rebuilt from a concrete two-entry
table. -/
theorem rebuild_pollers_exact_witness :
    (rebuildPollers 1 [(3, ⟨Interest.READ, 0, ⟨0⟩⟩),
        (4, ⟨Interest.BOTH, 1, ⟨1⟩⟩)]).length = 3 ∧
    (rebuildPollers 1 [(3, ⟨Interest.READ, 0, ⟨0⟩⟩),
        (4, ⟨Interest.BOTH, 1, ⟨1⟩⟩)]).head? = some ⟨1, POLLIN, 0⟩ :=
  ⟨(rebuild_pollers_exact 1 [(3, ⟨Interest.READ, 0, ⟨0⟩⟩),
      (4, ⟨Interest.BOTH, 1, ⟨1⟩⟩)]
      (by unfold FdMap.keysNodup; decide)).1,
   (rebuild_pollers_exact 1 [(3, ⟨Interest.READ, 0, ⟨0⟩⟩),
      (4, ⟨Interest.BOTH, 1, ⟨1⟩⟩)]
      (by unfold FdMap.keysNodup; decide)).2.1⟩
